import Mathlib

/-!
Shallow embedding of the edge-deletion mutation path of
`src/storage/mutate/DeleteEdgesProcessor.cpp`
(`DeleteEdgesProcessor::process` and `DeleteEdgesProcessor::deleteEdges`).

External collaborators of the processor (schema manager, index manager,
key-value store, key codecs, index-state helpers, result aggregation of the
base processor) are not part of the analyzed source file; they are modelled
from the specification where noted, with the processor's own control flow
translated directly from the source.
-/

namespace NebulaStorage

/-- Error codes of `nebula::cpp2::ErrorCode` that appear on the delete-edges
path, plus a catch-all for other store-reported codes. -/
inductive ErrorCode
  | SUCCEEDED
  | E_INVALID_SPACEVIDLEN
  | E_SPACE_NOT_FOUND
  | E_INVALID_VID
  | E_INVALID_DATA
  | E_DATA_CONFLICT_ERROR
  | E_OTHER (n : Nat)
deriving DecidableEq, Repr

/-- Modelled from the spec: `IndexLifecycleState` is one of
Normal | Rebuilding | Locked (the `IndexState` enum of the storage
environment is not part of the analyzed source file). -/
inductive IndexState
  | normal
  | rebuilding
  | locked
deriving DecidableEq, Repr

/-- Modelled from the spec: the Rebuilding test used by the branch at line 182
of the source (`env_->checkRebuilding(indexState)`). -/
def checkRebuilding : IndexState → Bool
  | .rebuilding => true
  | _ => false

/-- Modelled from the spec: the Locked test used by the branch at line 185
of the source (`env_->checkIndexLocked(indexState)`). -/
def checkIndexLocked : IndexState → Bool
  | .locked => true
  | _ => false

/-- Modelled from the spec: `classify(key) -> {Lock, EdgeRecord, Other}` of the
key codec. A raw key scanned from the store carries its classification. -/
inductive KeyClass
  | lock
  | edgeRec
  | other
deriving DecidableEq, BEq, Repr

/-- One entry returned by a prefix scan of the store: the raw key with its
classification, and the stored value. -/
structure ScanEntry where
  cls : KeyClass
  key : String
  val : String
deriving DecidableEq, BEq, Repr

/-- Storage keys as they appear in batch operations: raw keys obtained from a
prefix scan, encoded edge keys (`NebulaKeyUtils::edgeKey`), encoded edge index
keys (`IndexKeyUtils::edgeIndexKey`), and deferred-deletion operation keys
(`OperationKeyUtils::deleteOperationKey`). The distinct constructors reflect
that the encodings of the distinct key families do not collide. -/
inductive SKey
  | raw (cls : KeyClass) (key : String)
  | edge (vidLen partId : Nat) (src : String) (edgeType ranking : Int) (dst : String)
  | index (vidLen partId indexId : Nat) (src : String) (ranking : Int) (dst : String)
      (vals : List String)
  | delOp (partId : Nat)
deriving DecidableEq, BEq, Repr

/-- Modelled from the spec: `NebulaKeyUtils::edgeKey` (key codec, not in the
analyzed file) — fixed-layout encoding of an edge identity. -/
def edgeKey (vidLen partId : Nat) (src : String) (edgeType ranking : Int)
    (dst : String) : SKey :=
  SKey.edge vidLen partId src edgeType ranking dst

/-- Modelled from the spec: `IndexKeyUtils::edgeIndexKey` (key codec, not in
the analyzed file). -/
def edgeIndexKey (vidLen partId indexId : Nat) (src : String) (ranking : Int)
    (dst : String) (vals : List String) : SKey :=
  SKey.index vidLen partId indexId src ranking dst vals

/-- Modelled from the spec: `OperationKeyUtils::deleteOperationKey` (key codec,
not in the analyzed file) — the key of a deferred-deletion entry. -/
def deleteOperationKey (partId : Nat) : SKey :=
  SKey.delOp partId

/-- Modelled from the spec: `NebulaKeyUtils::isLock` — classification of a
scanned key as a lock placeholder. The `vidLen` argument mirrors the source
call signature. -/
def isLock (vidLen : Nat) (e : ScanEntry) : Bool :=
  e.cls == KeyClass.lock

/-- Modelled from the spec: `NebulaKeyUtils::isEdge` — classification of a
scanned key as an edge record. -/
def isEdge (vidLen : Nat) (e : ScanEntry) : Bool :=
  e.cls == KeyClass.edgeRec

/-- Modelled from the spec: `NebulaKeyUtils::isValidVidLen` — rejects vertex
ids whose encoded length does not equal the space's vertex-id length. -/
def isValidVidLen (vidLen : Nat) (src dst : String) : Bool :=
  src.length == vidLen && dst.length == vidLen

/-- The scan prefix built by `NebulaKeyUtils::edgePrefix` at line 136 of the
source: all fields of the edge identity together with the space vid length. -/
structure EdgePfx where
  vidLen : Nat
  partId : Nat
  src : String
  edgeType : Int
  ranking : Int
  dst : String
deriving DecidableEq, Repr

/-- Modelled from the spec: `NebulaKeyUtils::edgePrefix` (key codec, not in
the analyzed file). -/
def edgePfx (vidLen partId : Nat) (src : String) (edgeType ranking : Int)
    (dst : String) : EdgePfx :=
  ⟨vidLen, partId, src, edgeType, ranking, dst⟩

/-- An edge-index descriptor as consumed at lines 155-179 of the source:
index id, owning edge type, and the indexed field list. -/
structure IndexItem where
  indexId : Nat
  edgeType : Int
  fields : List String
deriving DecidableEq, Repr

/-- An edge key of the request (`cpp2::EdgeKey`). -/
structure EdgeKeyT where
  src : String
  edgeType : Int
  ranking : Int
  dst : String
deriving DecidableEq, Repr

/-- A `cpp2::DeleteEdgesRequest`: the space id and the partition-grouped edge
keys. -/
structure DeleteEdgesRequest where
  spaceId : Nat
  parts : List (Nat × List EdgeKeyT)

/-- One batch operation (`kvstore::BatchHolder::put` / `remove`).
Modelled from the spec: a batch is an ordered, append-only sequence of
put/remove operations (the batch holder itself is not in the analyzed file). -/
inductive BatchOp
  | put (k v : SKey)
  | remove (k : SKey)
deriving DecidableEq, BEq, Repr

/-- The removal operation emitted for a scanned key
(`batchHolder->remove(iter->key().str())`). -/
def rmOf (kv : ScanEntry) : BatchOp :=
  BatchOp.remove (SKey.raw kv.cls kv.key)

/-- The external collaborators consumed by the processor, as pure functions:
the schema manager's vid-length lookup, the index manager's index-set lookup,
the store's prefix scan, the schema-aware record decoder, index-value
extraction, the index-state oracle, the in-process lock coordinator, and the
store's asynchronous completion code per partition. All are side-effect-free
in this embedding, as the spec assumes for one request's processing. -/
structure Env where
  vidLenRes : Option Nat
  edgeIndexesRes : Option (List IndexItem)
  pfxScan : Nat → Nat → EdgePfx → Except ErrorCode (List ScanEntry)
  decodeEdge : Int → String → Bool
  collectVals : String → List String → Option (List String)
  getIndexState : Nat → Nat → IndexState
  acquireLock : Nat → Bool
  storeResult : Nat → ErrorCode

/-- The lifecycle state consulted while handling the entry of index `indexId`:
the source call at line 181 is `env_->getIndexState(spaceId_, partId)`, which
passes only the space and the partition, so the consulted state does not
depend on `indexId`. The index-id argument records on whose behalf the query
is made. -/
def stateForIndex (env : Env) (spaceId partId indexId : Nat) : IndexState :=
  env.getIndexState spaceId partId

/-- The per-index body of the loop at lines 155-191 of the source, after the
reader has been obtained: extract the indexed values (skipping this index if
extraction fails, line 171), build the index key, and branch on the index
lifecycle state (lines 181-190). -/
def oneIndexOps (env : Env) (vid spaceId partId : Nat) (e : EdgeKeyT)
    (rowVal : String) (idx : IndexItem) : Except ErrorCode (List BatchOp) :=
  match env.collectVals rowVal idx.fields with
  | none => .ok []
  | some vals =>
    let ikey := edgeIndexKey vid partId idx.indexId e.src e.ranking e.dst vals
    let st := stateForIndex env spaceId partId idx.indexId
    if checkRebuilding st then
      .ok [BatchOp.put (deleteOperationKey partId) ikey]
    else if checkIndexLocked st then
      .error ErrorCode.E_DATA_CONFLICT_ERROR
    else
      .ok [BatchOp.remove ikey]

/-- The index loop at lines 154-192 of the source. `haveReader` tracks whether
the row reader has already been created; the reader is created lazily at the
first index whose edge type matches (lines 159-167), and its creation failure
aborts with `E_INVALID_DATA`. -/
def indexOpsLoop (env : Env) (vid spaceId partId : Nat) (e : EdgeKeyT)
    (rowVal : String) : List IndexItem → Bool → Except ErrorCode (List BatchOp)
  | [], _ => .ok []
  | idx :: rest, haveReader =>
    if e.edgeType == idx.edgeType then
      if !haveReader && !(env.decodeEdge e.edgeType rowVal) then
        .error ErrorCode.E_INVALID_DATA
      else
        match oneIndexOps env vid spaceId partId e rowVal idx with
        | .error c => .error c
        | .ok ops =>
          match indexOpsLoop env vid spaceId partId e rowVal rest true with
          | .error c => .error c
          | .ok more => .ok (ops ++ more)
    else
      indexOpsLoop env vid spaceId partId e rowVal rest haveReader

/-- Processing of one edge inside `DeleteEdgesProcessor::deleteEdges`
(lines 131-201 of the source): scan the edge's prefix, remove leading lock
keys (lines 145-148), handle the current edge record and its index entries
(lines 150-196), then remove every remaining key under the prefix
(lines 198-201). -/
def deleteEdgesOne (env : Env) (vid spaceId : Nat) (idxs : List IndexItem)
    (partId : Nat) (e : EdgeKeyT) : Except ErrorCode (List BatchOp) :=
  let pfx := edgePfx vid partId e.src e.edgeType e.ranking e.dst
  match env.pfxScan spaceId partId pfx with
  | .error c => .error c
  | .ok kvs =>
    let lockOps := (kvs.takeWhile (isLock vid)).map rmOf
    match kvs.dropWhile (isLock vid) with
    | [] => .ok lockOps
    | kv :: rest2 =>
      if isEdge vid kv then
        match indexOpsLoop env vid spaceId partId e kv.val idxs false with
        | .error c => .error c
        | .ok iops =>
          .ok (lockOps ++ iops ++ [rmOf kv] ++ rest2.map rmOf)
      else
        .ok (lockOps ++ (kv :: rest2).map rmOf)

/-- `DeleteEdgesProcessor::deleteEdges` (lines 128-205 of the source): one
batch holder accumulates the operations of all edges in order; any failure
returns immediately and no batch is produced. The serialized batch payload is
modelled as the operation list itself. -/
def deleteEdges (env : Env) (vid spaceId : Nat) (idxs : List IndexItem)
    (partId : Nat) : List EdgeKeyT → Except ErrorCode (List BatchOp)
  | [] => .ok []
  | e :: rest =>
    match deleteEdgesOne env vid spaceId idxs partId e with
    | .error c => .error c
    | .ok ops =>
      match deleteEdges env vid spaceId idxs partId rest with
      | .error c => .error c
      | .ok more => .ok (ops ++ more)

/-- The no-index fast path's key-building loop (lines 50-75 of the source):
validate each identity's vid lengths, breaking with `E_INVALID_VID` at the
first invalid identity (the keys built so far are then discarded, lines
76-79); otherwise encode every edge key. -/
def fastPathKeys (vid partId : Nat) : List EdgeKeyT → Except ErrorCode (List SKey)
  | [] => .ok []
  | e :: rest =>
    if isValidVidLen vid e.src e.dst then
      match fastPathKeys vid partId rest with
      | .error c => .error c
      | .ok ks => .ok (edgeKey vid partId e.src e.edgeType e.ranking e.dst :: ks)
    else
      .error ErrorCode.E_INVALID_VID

/-- What one partition submits to the store: its operations and whether the
in-process edge locks were held across the submission. -/
structure Submission where
  partId : Nat
  ops : List BatchOp
  withLock : Bool
deriving DecidableEq, Repr

/-- The per-partition body of `DeleteEdgesProcessor::process` (lines 48-124 of
the source). On the fast path (no indexes) a remove-only key set is submitted
without any lock (`doRemove`, line 80); an invalid identity fails the
partition with no submission (lines 76-79). On the index-aware path the batch
is built by `deleteEdges`; a build failure fails the partition (lines 98-101),
a lock-acquisition conflict fails it with `E_DATA_CONFLICT_ERROR` (lines
103-115), and otherwise the batch is submitted under the held lock (lines
116-122). The asynchronous completion code is the store-reported code for the
partition. Modelled from the spec: `handleAsync` records exactly one terminal
result code for the partition. -/
def processPart (env : Env) (vid spaceId : Nat) (idxs : List IndexItem)
    (pe : Nat × List EdgeKeyT) : (Nat × ErrorCode) × Option Submission :=
  if idxs.isEmpty then
    match fastPathKeys vid pe.1 pe.2 with
    | .error c => ((pe.1, c), none)
    | .ok ks =>
      ((pe.1, env.storeResult pe.1), some ⟨pe.1, ks.map BatchOp.remove, false⟩)
  else
    match deleteEdges env vid spaceId idxs pe.1 pe.2 with
    | .error c => ((pe.1, c), none)
    | .ok ops =>
      if env.acquireLock pe.1 then
        ((pe.1, env.storeResult pe.1), some ⟨pe.1, ops, true⟩)
      else
        ((pe.1, ErrorCode.E_DATA_CONFLICT_ERROR), none)

/-- `DeleteEdgesProcessor::process` (lines 18-125 of the source): resolve the
space vid length (failure fails every partition with `E_INVALID_SPACEVIDLEN`,
lines 23-31), resolve the space's edge indexes (failure fails every partition
with `E_SPACE_NOT_FOUND`, lines 35-44), then handle every partition of the
request. The result is the per-partition terminal codes together with the
submissions handed to the store. -/
def process (env : Env) (req : DeleteEdgesRequest) :
    List (Nat × ErrorCode) × List Submission :=
  match env.vidLenRes with
  | none => (req.parts.map (fun pe => (pe.1, ErrorCode.E_INVALID_SPACEVIDLEN)), [])
  | some vid =>
    match env.edgeIndexesRes with
    | none => (req.parts.map (fun pe => (pe.1, ErrorCode.E_SPACE_NOT_FOUND)), [])
    | some idxs =>
      let outs := req.parts.map (processPart env vid req.spaceId idxs)
      (outs.map Prod.fst, outs.filterMap Prod.snd)

/-- Modelled from the spec: applying one batch operation to a partition's
key-value state at the store boundary. -/
def applyOp (st : List (SKey × SKey)) : BatchOp → List (SKey × SKey)
  | .put k v => (k, v) :: st.filter (fun kv => !(kv.1 == k))
  | .remove k => st.filter (fun kv => !(kv.1 == k))

/-- Modelled from the spec: a submitted batch is applied to its partition as a
single ordered unit. -/
def applyBatch (st : List (SKey × SKey)) (ops : List BatchOp) : List (SKey × SKey) :=
  ops.foldl applyOp st

/-- Modelled from the spec: the keyspace of partition `p` after all submitted
batches are applied; only submissions targeting `p` touch it. -/
def applySubmissions (store : Nat → List (SKey × SKey)) (subs : List Submission)
    (p : Nat) : List (SKey × SKey) :=
  (subs.filter (fun s => s.partId == p)).foldl (fun st s => applyBatch st s.ops)
    (store p)

/-- True of an operation that writes a deferred-deletion entry. -/
def opIsDeferredPut : BatchOp → Bool
  | .put (SKey.delOp _) _ => true
  | _ => false

/-- True of an operation that directly removes an encoded index key. -/
def opIsIndexRemove : BatchOp → Bool
  | .remove (SKey.index _ _ _ _ _ _ _) => true
  | _ => false

/-- The operation layout produced for one edge by the index-aware builder:
one removal per leading lock key under the edge's prefix, then — when the
next key classifies as an edge record — the per-index operations followed by
the removal of the edge record key, then one removal per remaining key. -/
def perEdgeShape (env : Env) (vid spaceId : Nat) (idxs : List IndexItem)
    (partId : Nat) (e : EdgeKeyT) (seg : List BatchOp) : Prop :=
  ∃ kvs, env.pfxScan spaceId partId
      (edgePfx vid partId e.src e.edgeType e.ranking e.dst) = .ok kvs ∧
    match kvs.dropWhile (isLock vid) with
    | [] => seg = (kvs.takeWhile (isLock vid)).map rmOf
    | kv :: rest2 =>
      if isEdge vid kv then
        ∃ iops, indexOpsLoop env vid spaceId partId e kv.val idxs false = .ok iops ∧
          seg = (kvs.takeWhile (isLock vid)).map rmOf ++ iops ++ [rmOf kv]
            ++ rest2.map rmOf
      else
        seg = (kvs.takeWhile (isLock vid)).map rmOf ++ (kv :: rest2).map rmOf

/-- The processing of edge `e` reaches the state branch of some index entry:
its prefix scan succeeds, the first non-lock key is an edge record, the row
decodes, and some index of the space matches the edge's type with successful
index-value extraction. -/
def reachesIndexEntry (env : Env) (vid spaceId : Nat) (idxs : List IndexItem)
    (partId : Nat) (e : EdgeKeyT) : Prop :=
  ∃ kvs kv rest2,
    env.pfxScan spaceId partId
      (edgePfx vid partId e.src e.edgeType e.ranking e.dst) = .ok kvs ∧
    kvs.dropWhile (isLock vid) = kv :: rest2 ∧
    isEdge vid kv = true ∧
    env.decodeEdge e.edgeType kv.val = true ∧
    ∃ idx ∈ idxs, (e.edgeType == idx.edgeType) = true
      ∧ (env.collectVals kv.val idx.fields).isSome = true

/-- A one-edge request key used by the concrete scenarios below; its vertex
ids have length 1. -/
def eOK : EdgeKeyT := ⟨"a", 3, 0, "b"⟩

/-- An index on edge type 3 with no indexed fields. -/
def idx0 : IndexItem := ⟨7, 3, []⟩

/-- An index on edge type 3 with one indexed field, used as the index whose
value extraction fails in the concrete scenarios. -/
def idxF : IndexItem := ⟨9, 3, [("f")]⟩

/-- A concrete environment: vid length 1, one index in Normal state, one edge
record stored under every scanned prefix. -/
def envNormal : Env :=
  ⟨some 1, some [idx0], fun _ _ _ => .ok [⟨KeyClass.edgeRec, "k", "v"⟩],
    fun _ _ => true, fun _ _ => some [], fun _ _ => .normal,
    fun _ => true, fun _ => .SUCCEEDED⟩

/-- A concrete environment identical to `envNormal` except that the partition
index state is Locked. -/
def envLocked : Env :=
  ⟨some 1, some [idx0], fun _ _ _ => .ok [⟨KeyClass.edgeRec, "k", "v"⟩],
    fun _ _ => true, fun _ _ => some [], fun _ _ => .locked,
    fun _ => true, fun _ => .SUCCEEDED⟩

/-- A concrete environment identical to `envNormal` except that the partition
index state is Rebuilding. -/
def envRebuild : Env :=
  ⟨some 1, some [idx0], fun _ _ _ => .ok [⟨KeyClass.edgeRec, "k", "v"⟩],
    fun _ _ => true, fun _ _ => some [], fun _ _ => .rebuilding,
    fun _ => true, fun _ => .SUCCEEDED⟩

/-- A concrete environment whose prefix scans fail with `E_INVALID_VID`. -/
def envScanFail : Env :=
  ⟨some 1, some [idx0], fun _ _ _ => .error .E_INVALID_VID,
    fun _ _ => true, fun _ _ => some [], fun _ _ => .normal,
    fun _ => true, fun _ => .SUCCEEDED⟩

/-- A concrete environment whose prefix scans find no keys at all. -/
def envEmptyScan : Env :=
  ⟨some 1, some [idx0], fun _ _ _ => .ok [],
    fun _ _ => true, fun _ _ => some [], fun _ _ => .normal,
    fun _ => true, fun _ => .SUCCEEDED⟩

/-- A concrete environment whose vid-length lookup fails. -/
def envNoVid : Env :=
  ⟨none, some [idx0], fun _ _ _ => .ok [],
    fun _ _ => true, fun _ _ => some [], fun _ _ => .normal,
    fun _ => true, fun _ => .SUCCEEDED⟩

/-- A concrete environment whose edge-index lookup fails. -/
def envNoIdx : Env :=
  ⟨some 1, none, fun _ _ _ => .ok [],
    fun _ _ => true, fun _ _ => some [], fun _ _ => .normal,
    fun _ => true, fun _ => .SUCCEEDED⟩

/-- A concrete environment for the no-index fast path: vid length 1 and an
empty index set. -/
def envFast : Env :=
  ⟨some 1, some [], fun _ _ _ => .ok [],
    fun _ _ => true, fun _ _ => some [], fun _ _ => .normal,
    fun _ => true, fun _ => .SUCCEEDED⟩

/-- A concrete environment in which index-value extraction succeeds exactly
for empty field lists, so that extraction fails for `idxF` but succeeds for
`idx0`. -/
def envSkip : Env :=
  ⟨some 1, some [idx0, idxF], fun _ _ _ => .ok [⟨KeyClass.edgeRec, "k", "v"⟩],
    fun _ _ => true, fun _ fl => if fl.isEmpty then some [] else none,
    fun _ _ => .normal, fun _ => true, fun _ => .SUCCEEDED⟩

/-! ## Helper lemmas -/

theorem checkRebuilding_of_locked {st : IndexState}
    (h : checkIndexLocked st = true) : checkRebuilding st = false := by
  cases st <;> simp_all [checkIndexLocked, checkRebuilding]

theorem oneIndexOps_error {env : Env} {vid spaceId partId : Nat} {e : EdgeKeyT}
    {rowVal : String} {idx : IndexItem} {c : ErrorCode}
    (h : oneIndexOps env vid spaceId partId e rowVal idx = .error c) :
    c = ErrorCode.E_DATA_CONFLICT_ERROR := by
  unfold oneIndexOps at h
  split at h
  · simp at h
  · simp only [] at h
    split at h
    · simp at h
    · split at h
      · injection h with h
        exact h.symm
      · simp at h

theorem indexOpsLoop_error {env : Env} {vid spaceId partId : Nat} {e : EdgeKeyT}
    {rowVal : String} {c : ErrorCode} :
    ∀ {l : List IndexItem} {hr : Bool},
    indexOpsLoop env vid spaceId partId e rowVal l hr = .error c →
    c = ErrorCode.E_INVALID_DATA ∨ c = ErrorCode.E_DATA_CONFLICT_ERROR := by
  intro l
  induction l with
  | nil => intro hr h; simp [indexOpsLoop] at h
  | cons idx rest ih =>
    intro hr h
    rw [indexOpsLoop] at h
    split at h
    · split at h
      · injection h with h
        exact Or.inl h.symm
      · split at h
        · rename_i c' hc
          injection h with h
          subst h
          exact Or.inr (oneIndexOps_error hc)
        · split at h
          · injection h with h
            subst h
            exact ih (by assumption)
          · simp at h
    · exact ih h

theorem indexOpsLoop_hr {env : Env} {vid spaceId partId : Nat} {e : EdgeKeyT}
    {rowVal : String} (hdec : env.decodeEdge e.edgeType rowVal = true) :
    ∀ (l : List IndexItem) (hr hr' : Bool),
    indexOpsLoop env vid spaceId partId e rowVal l hr
      = indexOpsLoop env vid spaceId partId e rowVal l hr' := by
  intro l
  induction l with
  | nil => intro hr hr'; rfl
  | cons idx rest ih =>
    intro hr hr'
    rw [indexOpsLoop, indexOpsLoop]
    split
    · simp [hdec]
    · exact ih hr hr'

theorem rmOf_not_index (kv : ScanEntry) : opIsIndexRemove (rmOf kv) = false := rfl

theorem rmOf_not_put (kv : ScanEntry) : opIsDeferredPut (rmOf kv) = false := rfl

theorem deferredPut_not_indexRemove {op : BatchOp}
    (h : opIsDeferredPut op = true) : opIsIndexRemove op = false := by
  cases op with
  | put k v => rfl
  | remove k => simp [opIsDeferredPut] at h

theorem oneIndexOps_ok_mem {env : Env} {vid spaceId partId : Nat} {e : EdgeKeyT}
    {rowVal : String} {idx : IndexItem} {ops : List BatchOp} {op : BatchOp}
    (h : oneIndexOps env vid spaceId partId e rowVal idx = .ok ops)
    (hop : op ∈ ops) :
    (opIsDeferredPut op = true
      ∧ checkRebuilding (env.getIndexState spaceId partId) = true)
    ∨ (opIsIndexRemove op = true
      ∧ checkRebuilding (env.getIndexState spaceId partId) = false) := by
  unfold oneIndexOps at h
  split at h
  · injection h with h
    subst h
    simp at hop
  · simp only [] at h
    split at h
    · rename_i hreb
      injection h with h
      subst h
      simp at hop
      subst hop
      exact Or.inl ⟨rfl, by simpa [stateForIndex] using hreb⟩
    · split at h
      · simp at h
      · rename_i hreb hlk
        injection h with h
        subst h
        simp at hop
        subst hop
        refine Or.inr ⟨rfl, ?_⟩
        simpa [stateForIndex] using hreb

theorem indexOpsLoop_ok_mem {env : Env} {vid spaceId partId : Nat}
    {e : EdgeKeyT} {rowVal : String} :
    ∀ {l : List IndexItem} {hr : Bool} {ops : List BatchOp} {op : BatchOp},
    indexOpsLoop env vid spaceId partId e rowVal l hr = .ok ops → op ∈ ops →
    (opIsDeferredPut op = true
      ∧ checkRebuilding (env.getIndexState spaceId partId) = true)
    ∨ (opIsIndexRemove op = true
      ∧ checkRebuilding (env.getIndexState spaceId partId) = false) := by
  intro l
  induction l with
  | nil =>
    intro hr ops op h hop
    rw [indexOpsLoop] at h
    injection h with h
    subst h
    simp at hop
  | cons idx rest ih =>
    intro hr ops op h hop
    rw [indexOpsLoop] at h
    split at h
    · split at h
      · simp at h
      · split at h
        · simp at h
        · rename_i hone
          split at h
          · simp at h
          · rename_i hrest
            injection h with h
            subst h
            rcases List.mem_append.mp hop with h1 | h2
            · exact oneIndexOps_ok_mem hone h1
            · exact ih hrest h2
    · exact ih h hop

theorem deleteEdgesOne_ok_mem {env : Env} {vid spaceId : Nat}
    {idxs : List IndexItem} {partId : Nat} {e : EdgeKeyT} {ops : List BatchOp}
    {op : BatchOp}
    (h : deleteEdgesOne env vid spaceId idxs partId e = .ok ops)
    (hop : op ∈ ops) :
    (∃ kv, op = rmOf kv)
    ∨ (opIsDeferredPut op = true
      ∧ checkRebuilding (env.getIndexState spaceId partId) = true)
    ∨ (opIsIndexRemove op = true
      ∧ checkRebuilding (env.getIndexState spaceId partId) = false) := by
  unfold deleteEdgesOne at h
  simp only [] at h
  split at h
  · simp at h
  · split at h
    · injection h with h
      subst h
      rcases List.mem_map.mp hop with ⟨kv, _, rfl⟩
      exact Or.inl ⟨kv, rfl⟩
    · split at h
      · split at h
        · simp at h
        · rename_i hloop
          injection h with h
          subst h
          simp only [List.mem_append, List.mem_singleton] at hop
          rcases hop with ((hop | hop) | hop) | hop
          · rcases List.mem_map.mp hop with ⟨kv, _, rfl⟩
            exact Or.inl ⟨kv, rfl⟩
          · exact Or.inr (indexOpsLoop_ok_mem hloop hop)
          · exact Or.inl ⟨_, hop⟩
          · rcases List.mem_map.mp hop with ⟨kv, _, rfl⟩
            exact Or.inl ⟨kv, rfl⟩
      · injection h with h
        subst h
        rcases List.mem_append.mp hop with h1 | h2
        · rcases List.mem_map.mp h1 with ⟨kv, _, rfl⟩
          exact Or.inl ⟨kv, rfl⟩
        · rcases List.mem_map.mp h2 with ⟨kv, _, rfl⟩
          exact Or.inl ⟨kv, rfl⟩

theorem deleteEdges_ok_mem {env : Env} {vid spaceId : Nat}
    {idxs : List IndexItem} {partId : Nat} :
    ∀ {edges : List EdgeKeyT} {ops : List BatchOp} {op : BatchOp},
    deleteEdges env vid spaceId idxs partId edges = .ok ops → op ∈ ops →
    (∃ kv, op = rmOf kv)
    ∨ (opIsDeferredPut op = true
      ∧ checkRebuilding (env.getIndexState spaceId partId) = true)
    ∨ (opIsIndexRemove op = true
      ∧ checkRebuilding (env.getIndexState spaceId partId) = false) := by
  intro edges
  induction edges with
  | nil =>
    intro ops op h hop
    rw [deleteEdges] at h
    injection h with h
    subst h
    simp at hop
  | cons e rest ih =>
    intro ops op h hop
    rw [deleteEdges] at h
    split at h
    · simp at h
    · rename_i hone
      split at h
      · simp at h
      · rename_i hrest
        injection h with h
        subst h
        rcases List.mem_append.mp hop with h1 | h2
        · exact deleteEdgesOne_ok_mem hone h1
        · exact ih hrest h2

theorem deleteEdges_split {env : Env} {vid spaceId : Nat}
    {idxs : List IndexItem} {partId : Nat} :
    ∀ {l1 : List EdgeKeyT} {e : EdgeKeyT} {l2 : List EdgeKeyT}
      {ops : List BatchOp},
    deleteEdges env vid spaceId idxs partId (l1 ++ e :: l2) = .ok ops →
    ∃ a b c, deleteEdgesOne env vid spaceId idxs partId e = .ok b
      ∧ ops = a ++ b ++ c := by
  intro l1
  induction l1 with
  | nil =>
    intro e l2 ops h
    rw [List.nil_append, deleteEdges] at h
    split at h
    · simp at h
    · rename_i more1 hone
      split at h
      · simp at h
      · rename_i more2 hrest
        injection h with h
        subst h
        exact ⟨[], more1, more2, hone, by simp⟩
  | cons e' l1 ih =>
    intro e l2 ops h
    rw [List.cons_append, deleteEdges] at h
    split at h
    · simp at h
    · rename_i more1 hone
      split at h
      · simp at h
      · rename_i more2 hrest
        injection h with h
        subst h
        rcases ih hrest with ⟨a, b, c, hb, rfl⟩
        exact ⟨more1 ++ a, b, c, hb, by simp⟩

theorem deleteEdgesOne_shape {env : Env} {vid spaceId : Nat}
    {idxs : List IndexItem} {partId : Nat} {e : EdgeKeyT} {seg : List BatchOp}
    (h : deleteEdgesOne env vid spaceId idxs partId e = .ok seg) :
    perEdgeShape env vid spaceId idxs partId e seg := by
  unfold deleteEdgesOne at h
  simp only [] at h
  unfold perEdgeShape
  split at h
  · simp at h
  · rename_i kvs hscan
    refine ⟨kvs, hscan, ?_⟩
    split at h
    · injection h with h
      exact h.symm
    · rename_i kv rest2 hdrop
      split at h
      · rename_i he
        simp only [he, if_true]
        split at h
        · simp at h
        · rename_i iops hloop
          injection h with h
          subst h
          exact ⟨iops, hloop, rfl⟩
      · rename_i he
        simp only [Bool.not_eq_true] at he
        simp only [he, Bool.false_eq_true, if_false]
        injection h with h
        exact h.symm

theorem indexOpsLoop_skip {env : Env} {vid spaceId partId : Nat}
    {e : EdgeKeyT} {rowVal : String} {bad : IndexItem}
    (hdec : env.decodeEdge e.edgeType rowVal = true)
    (hfail : env.collectVals rowVal bad.fields = none) :
    ∀ (l1 l2 : List IndexItem) (hr : Bool),
    indexOpsLoop env vid spaceId partId e rowVal (l1 ++ bad :: l2) hr
      = indexOpsLoop env vid spaceId partId e rowVal (l1 ++ l2) hr := by
  intro l1
  induction l1 with
  | nil =>
    intro l2 hr
    rw [List.nil_append, List.nil_append, indexOpsLoop]
    split
    · simp only [hdec, Bool.not_true, Bool.and_false, Bool.false_eq_true,
        if_false]
      rw [show oneIndexOps env vid spaceId partId e rowVal bad = .ok [] from by
        unfold oneIndexOps; rw [hfail]]
      rw [indexOpsLoop_hr hdec l2 true hr]
      cases indexOpsLoop env vid spaceId partId e rowVal l2 hr <;> simp
    · rfl
  | cons i l1 ih =>
    intro l2 hr
    rw [List.cons_append, List.cons_append, indexOpsLoop, indexOpsLoop]
    split
    · cases hone : oneIndexOps env vid spaceId partId e rowVal i <;>
        simp [hone, ih l2 true]
    · exact ih l2 hr

theorem fastPathKeys_all_valid {vid partId : Nat} :
    ∀ {edges : List EdgeKeyT},
    (∀ e ∈ edges, isValidVidLen vid e.src e.dst = true) →
    fastPathKeys vid partId edges
      = .ok (edges.map (fun e =>
          edgeKey vid partId e.src e.edgeType e.ranking e.dst)) := by
  intro edges
  induction edges with
  | nil => intro _; rfl
  | cons e rest ih =>
    intro h
    rw [fastPathKeys, ih (fun e' he' => h e' (List.mem_cons_of_mem _ he'))]
    simp [h e (List.mem_cons_self _ _)]

theorem fastPathKeys_invalid {vid partId : Nat} :
    ∀ {edges : List EdgeKeyT},
    (∃ e ∈ edges, isValidVidLen vid e.src e.dst = false) →
    fastPathKeys vid partId edges = .error ErrorCode.E_INVALID_VID := by
  intro edges
  induction edges with
  | nil =>
    rintro ⟨e, he, _⟩
    simp at he
  | cons e rest ih =>
    rintro ⟨e', he', hbad⟩
    rw [fastPathKeys]
    rcases List.mem_cons.mp he' with rfl | hmem
    · simp [hbad]
    · by_cases hv : isValidVidLen vid e.src e.dst = true
      · simp [hv, ih ⟨e', hmem, hbad⟩]
      · simp only [Bool.not_eq_true] at hv
        simp [hv]

theorem processPart_fst (env : Env) (vid spaceId : Nat)
    (idxs : List IndexItem) (pe : Nat × List EdgeKeyT) :
    ((processPart env vid spaceId idxs pe).1).1 = pe.1 := by
  unfold processPart
  split
  · split <;> rfl
  · split
    · rfl
    · split <;> rfl

theorem processPart_snd_partId {env : Env} {vid spaceId : Nat}
    {idxs : List IndexItem} {pe : Nat × List EdgeKeyT} {s : Submission}
    (h : (processPart env vid spaceId idxs pe).2 = some s) :
    s.partId = pe.1 := by
  unfold processPart at h
  split at h
  · split at h
    · simp at h
    · simp at h
      subst h
      rfl
  · split at h
    · simp at h
    · split at h
      · simp at h
        subst h
        rfl
      · simp at h

theorem applySubmissions_not_touched (store : Nat → List (SKey × SKey))
    {subs : List Submission} {p : Nat}
    (h : ∀ s ∈ subs, s.partId ≠ p) :
    applySubmissions store subs p = store p := by
  unfold applySubmissions
  rw [List.filter_eq_nil_iff.mpr ?_]
  · rfl
  · intro s hs
    simpa using h s hs

theorem indexOpsLoop_locked {env : Env} {vid spaceId partId : Nat}
    {e : EdgeKeyT} {rowVal : String}
    (hlock : checkIndexLocked (env.getIndexState spaceId partId) = true)
    (hdec : env.decodeEdge e.edgeType rowVal = true) :
    ∀ {l : List IndexItem} {hr : Bool},
    (∃ idx ∈ l, (e.edgeType == idx.edgeType) = true
      ∧ (env.collectVals rowVal idx.fields).isSome = true) →
    indexOpsLoop env vid spaceId partId e rowVal l hr
      = .error ErrorCode.E_DATA_CONFLICT_ERROR := by
  intro l
  induction l with
  | nil =>
    rintro hr ⟨idx, hmem, _⟩
    simp at hmem
  | cons i rest ih =>
    rintro hr ⟨idx, hmem, hty, hsome⟩
    rw [indexOpsLoop]
    rcases List.mem_cons.mp hmem with rfl | hmem'
    · simp only [hty, if_true, hdec, Bool.not_true, Bool.and_false,
        Bool.false_eq_true, if_false]
      rcases Option.isSome_iff_exists.mp hsome with ⟨vals, hvals⟩
      rw [show oneIndexOps env vid spaceId partId e rowVal idx
          = .error ErrorCode.E_DATA_CONFLICT_ERROR from by
        unfold oneIndexOps
        rw [hvals]
        simp [stateForIndex, checkRebuilding_of_locked hlock, hlock]]
    · by_cases hty' : (e.edgeType == i.edgeType) = true
      · simp only [hty', if_true, hdec, Bool.not_true, Bool.and_false,
          Bool.false_eq_true, if_false]
        cases hone : oneIndexOps env vid spaceId partId e rowVal i with
        | error c =>
          have hc := oneIndexOps_error hone
          subst hc
          rfl
        | ok ops1 =>
          rw [ih ⟨idx, hmem', hty, hsome⟩]
      · simp only [Bool.not_eq_true] at hty'
        simp only [hty', Bool.false_eq_true, if_false]
        exact ih ⟨idx, hmem', hty, hsome⟩

theorem deleteEdgesOne_locked {env : Env} {vid spaceId : Nat}
    {idxs : List IndexItem} {partId : Nat} {e : EdgeKeyT}
    (hlock : checkIndexLocked (env.getIndexState spaceId partId) = true)
    (hreach : reachesIndexEntry env vid spaceId idxs partId e) :
    deleteEdgesOne env vid spaceId idxs partId e
      = .error ErrorCode.E_DATA_CONFLICT_ERROR := by
  obtain ⟨kvs, kv, rest2, hscan, hdrop, he, hdec, hidx⟩ := hreach
  unfold deleteEdgesOne
  simp only [hscan, hdrop, he, if_true]
  rw [indexOpsLoop_locked hlock hdec hidx]

theorem deleteEdges_locked {env : Env} {vid spaceId : Nat}
    {idxs : List IndexItem} {partId : Nat} {e : EdgeKeyT}
    {post : List EdgeKeyT}
    (hlock : checkIndexLocked (env.getIndexState spaceId partId) = true)
    (hreach : reachesIndexEntry env vid spaceId idxs partId e) :
    ∀ {pre : List EdgeKeyT},
    (∀ e' ∈ pre, ∃ o, deleteEdgesOne env vid spaceId idxs partId e' = .ok o) →
    deleteEdges env vid spaceId idxs partId (pre ++ e :: post)
      = .error ErrorCode.E_DATA_CONFLICT_ERROR := by
  intro pre
  induction pre with
  | nil =>
    intro _
    rw [List.nil_append, deleteEdges, deleteEdgesOne_locked hlock hreach]
  | cons e' pre ih =>
    intro hpre
    rw [List.cons_append, deleteEdges]
    obtain ⟨o, ho⟩ := hpre e' (List.mem_cons_self _ _)
    simp only [ho]
    rw [ih (fun x hx => hpre x (List.mem_cons_of_mem _ hx))]

theorem indexOpsLoop_put_mem {env : Env} {vid spaceId partId : Nat}
    {e : EdgeKeyT} {rowVal : String} {idx : IndexItem} {vals : List String}
    (hreb : checkRebuilding (env.getIndexState spaceId partId) = true)
    (hty : (e.edgeType == idx.edgeType) = true)
    (hvals : env.collectVals rowVal idx.fields = some vals) :
    ∀ {l : List IndexItem} {hr : Bool} {iops : List BatchOp},
    indexOpsLoop env vid spaceId partId e rowVal l hr = .ok iops → idx ∈ l →
    BatchOp.put (deleteOperationKey partId)
      (edgeIndexKey vid partId idx.indexId e.src e.ranking e.dst vals) ∈ iops := by
  intro l
  induction l with
  | nil =>
    intro hr iops _ hmem
    simp at hmem
  | cons i rest ih =>
    intro hr iops h hmem
    rw [indexOpsLoop] at h
    rcases List.mem_cons.mp hmem with rfl | hmem'
    · rw [if_pos hty] at h
      split at h
      · simp at h
      · split at h
        · simp at h
        · rename_i ops1 hone
          split at h
          · simp at h
          · rename_i more hrest
            injection h with h
            subst h
            have hops1 : ops1 = [BatchOp.put (deleteOperationKey partId)
                (edgeIndexKey vid partId idx.indexId e.src e.ranking e.dst vals)] := by
              unfold oneIndexOps at hone
              rw [hvals] at hone
              simp only [stateForIndex] at hone
              rw [if_pos hreb] at hone
              injection hone with hone
              exact hone.symm
            rw [hops1]
            simp
    · split at h
      · split at h
        · simp at h
        · split at h
          · simp at h
          · rename_i ops1 hone
            split at h
            · simp at h
            · rename_i more hrest
              injection h with h
              subst h
              exact List.mem_append.mpr (Or.inr (ih hrest hmem'))
      · exact ih h hmem'

theorem deleteEdges_rebuilding_no_direct {env : Env} {vid spaceId : Nat}
    {idxs : List IndexItem} {partId : Nat} {edges : List EdgeKeyT}
    {ops : List BatchOp}
    (hreb : checkRebuilding (env.getIndexState spaceId partId) = true)
    (h : deleteEdges env vid spaceId idxs partId edges = .ok ops) :
    ∀ op ∈ ops, opIsIndexRemove op = false := by
  intro op hop
  rcases deleteEdges_ok_mem h hop with ⟨kv, rfl⟩ | ⟨hput, _⟩ | ⟨_, hfalse⟩
  · exact rmOf_not_index kv
  · exact deferredPut_not_indexRemove hput
  · rw [hreb] at hfalse
    simp at hfalse

theorem deleteEdgesOne_invalid_vid {env : Env} {vid spaceId : Nat}
    {idxs : List IndexItem} {partId : Nat} {e : EdgeKeyT}
    (h : deleteEdgesOne env vid spaceId idxs partId e
      = .error ErrorCode.E_INVALID_VID) :
    env.pfxScan spaceId partId
      (edgePfx vid partId e.src e.edgeType e.ranking e.dst)
      = .error ErrorCode.E_INVALID_VID := by
  unfold deleteEdgesOne at h
  simp only [] at h
  split at h
  · rename_i c hscan
    injection h with h
    subst h
    exact hscan
  · split at h
    · simp at h
    · split at h
      · split at h
        · rename_i c hloop
          injection h with h
          subst h
          rcases indexOpsLoop_error hloop with h1 | h1 <;> simp at h1
        · simp at h
      · simp at h

/-- C1 (amended): `deleteEdges` performs no vertex-id length validation of its
own — an invalid-identity error in its result can only originate from a
failing prefix scan of the store; identity lengths are validated only on the
no-index fast path. -/
theorem c1_no_vid_check_in_deleteEdges (env : Env) (vid spaceId : Nat)
    (idxs : List IndexItem) (partId : Nat) (edges : List EdgeKeyT)
    (h : deleteEdges env vid spaceId idxs partId edges
      = .error ErrorCode.E_INVALID_VID) :
    ∃ e ∈ edges, env.pfxScan spaceId partId
      (edgePfx vid partId e.src e.edgeType e.ranking e.dst)
      = .error ErrorCode.E_INVALID_VID := by
  induction edges with
  | nil =>
    rw [deleteEdges] at h
    simp at h
  | cons e rest ih =>
    rw [deleteEdges] at h
    split at h
    · rename_i c hone
      injection h with h
      subst h
      exact ⟨e, List.mem_cons_self _ _, deleteEdgesOne_invalid_vid hone⟩
    · split at h
      · rename_i c hrest
        injection h with h
        subst h
        rcases ih hrest with ⟨e1, hmem, hs⟩
        exact ⟨e1, List.mem_cons_of_mem _ hmem, hs⟩
      · simp at h

/-- C2 (counterexample): two distinct indexes (ids 7 and 9) of the same
partition, within one batch construction: the state consulted for them is one
and the same — the query passes only the space and partition ids — and both
entries take the same branch (here both become deferred-deletion puts), so
they are not classified per index identity. -/
theorem c2_counterexample :
    stateForIndex envRebuild 1 1 7 = stateForIndex envRebuild 1 1 9
    ∧ deleteEdges envRebuild 1 1 [idx0, ⟨9, 3, []⟩] 1 [eOK]
      = .ok [BatchOp.put (SKey.delOp 1) (SKey.index 1 1 7 ("a") 0 ("b") []),
          BatchOp.put (SKey.delOp 1) (SKey.index 1 1 9 ("a") 0 ("b") []),
          BatchOp.remove (SKey.raw KeyClass.edgeRec ("k"))] :=
  ⟨rfl, rfl⟩

/-- C2 (amended): the Normal/Rebuilding/Locked branch is decided by the
lifecycle state of the (space, partition) pair alone, so classification is
uniform within one batch construction: a successfully built batch never mixes
deferred-deletion puts with direct index-key removals. -/
theorem c2_uniform_classification (env : Env) (vid spaceId : Nat)
    (idxs : List IndexItem) (partId : Nat) (edges : List EdgeKeyT)
    (ops : List BatchOp)
    (h : deleteEdges env vid spaceId idxs partId edges = .ok ops) :
    (∀ op ∈ ops, opIsDeferredPut op = false)
    ∨ (∀ op ∈ ops, opIsIndexRemove op = false) := by
  cases hreb : checkRebuilding (env.getIndexState spaceId partId) with
  | true => exact Or.inr (deleteEdges_rebuilding_no_direct hreb h)
  | false =>
    refine Or.inl (fun op hop => ?_)
    rcases deleteEdges_ok_mem h hop with ⟨kv, rfl⟩ | ⟨_, htrue⟩ | ⟨hrem, _⟩
    · exact rmOf_not_put kv
    · rw [hreb] at htrue
      simp at htrue
    · cases op with
      | put k v => simp [opIsIndexRemove] at hrem
      | remove k => rfl

/-- C3: for every edge processed by the index-aware builder, the operations
enter the partition's batch in exactly the order: removals of the leading
lock keys, then (when the next key is an edge record) the per-index
operations followed by the removal of the edge record key, then removals of
every remaining key under the prefix; the per-edge segments appear in edge
order. -/
theorem c3_op_order (env : Env) (vid spaceId : Nat) (idxs : List IndexItem)
    (partId : Nat) (edges : List EdgeKeyT) (ops : List BatchOp)
    (h : deleteEdges env vid spaceId idxs partId edges = .ok ops) :
    ∃ segs : List (List BatchOp),
      List.Forall₂ (perEdgeShape env vid spaceId idxs partId) edges segs
      ∧ ops = segs.flatten := by
  induction edges generalizing ops with
  | nil =>
    rw [deleteEdges] at h
    injection h with h
    subst h
    exact ⟨[], List.Forall₂.nil, rfl⟩
  | cons e rest ih =>
    rw [deleteEdges] at h
    split at h
    · simp at h
    · rename_i o1 hone
      split at h
      · simp at h
      · rename_i o2 hrest
        injection h with h
        subst h
        rcases ih _ hrest with ⟨segs, hf, rfl⟩
        exact ⟨o1 :: segs, List.Forall₂.cons (deleteEdgesOne_shape hone) hf,
          by simp⟩

/-- C5: while an applicable index is Rebuilding, a deleted edge's index entry
is not removed directly; a deferred-deletion entry keyed by the operation key
and valued with the index key is put instead, and the batch contains no
direct removal of any index key. -/
theorem c5_rebuilding_deferred (env : Env) (vid spaceId : Nat)
    (idxs : List IndexItem) (partId : Nat) (edges : List EdgeKeyT)
    (ops : List BatchOp) (e : EdgeKeyT) (kvs : List ScanEntry) (kv : ScanEntry)
    (rest2 : List ScanEntry) (idx : IndexItem) (vals : List String)
    (hreb : checkRebuilding (env.getIndexState spaceId partId) = true)
    (hok : deleteEdges env vid spaceId idxs partId edges = .ok ops)
    (he : e ∈ edges)
    (hscan : env.pfxScan spaceId partId
      (edgePfx vid partId e.src e.edgeType e.ranking e.dst) = .ok kvs)
    (hdrop : kvs.dropWhile (isLock vid) = kv :: rest2)
    (hedge : isEdge vid kv = true)
    (hidx : idx ∈ idxs)
    (hty : (e.edgeType == idx.edgeType) = true)
    (hvals : env.collectVals kv.val idx.fields = some vals) :
    BatchOp.put (deleteOperationKey partId)
      (edgeIndexKey vid partId idx.indexId e.src e.ranking e.dst vals) ∈ ops
    ∧ ∀ op ∈ ops, opIsIndexRemove op = false := by
  refine ⟨?_, deleteEdges_rebuilding_no_direct hreb hok⟩
  obtain ⟨s, t, rfl⟩ := List.append_of_mem he
  obtain ⟨a, b, c, hb, rfl⟩ := deleteEdges_split hok
  obtain ⟨kvs1, hscan1, hmatch⟩ := deleteEdgesOne_shape hb
  rw [hscan] at hscan1
  injection hscan1 with hk
  subst hk
  simp only [hdrop, hedge, if_true] at hmatch
  obtain ⟨iops, hloop, rfl⟩ := hmatch
  have hput := indexOpsLoop_put_mem hreb hty hvals hloop hidx
  simp [hput]

/-- C6: when index-value extraction fails for one applicable index of an edge
record, exactly that index is skipped: the construction behaves as if the
index were absent (no operation for it, no error), and the removal of the
edge record key itself still occurs. -/
theorem c6_extraction_failure_skips (env : Env) (vid spaceId : Nat)
    (l1 l2 : List IndexItem) (bad : IndexItem) (partId : Nat) (e : EdgeKeyT)
    (kvs : List ScanEntry) (kv : ScanEntry) (rest2 : List ScanEntry)
    (hscan : env.pfxScan spaceId partId
      (edgePfx vid partId e.src e.edgeType e.ranking e.dst) = .ok kvs)
    (hdrop : kvs.dropWhile (isLock vid) = kv :: rest2)
    (hedge : isEdge vid kv = true)
    (hdec : env.decodeEdge e.edgeType kv.val = true)
    (hty : (e.edgeType == bad.edgeType) = true)
    (hfail : env.collectVals kv.val bad.fields = none) :
    deleteEdgesOne env vid spaceId (l1 ++ bad :: l2) partId e
      = deleteEdgesOne env vid spaceId (l1 ++ l2) partId e
    ∧ ∀ ops, deleteEdgesOne env vid spaceId (l1 ++ bad :: l2) partId e = .ok ops
        → rmOf kv ∈ ops := by
  constructor
  · unfold deleteEdgesOne
    simp only [hscan, hdrop, hedge, if_true]
    rw [indexOpsLoop_skip hdec hfail l1 l2 false]
  · intro ops hops
    obtain ⟨kvs1, hscan1, hmatch⟩ := deleteEdgesOne_shape hops
    rw [hscan] at hscan1
    injection hscan1 with hk
    subst hk
    simp only [hdrop, hedge, if_true] at hmatch
    obtain ⟨iops, hloop, rfl⟩ := hmatch
    simp

/-- C7: if the vid-length lookup fails every partition of the request gets
`E_INVALID_SPACEVIDLEN`, and if the index-set lookup fails every partition
gets `E_SPACE_NOT_FOUND`; in both cases nothing is submitted and the request
completes immediately. -/
theorem c7_config_failures (env : Env) (req : DeleteEdgesRequest) :
    (env.vidLenRes = none →
      process env req
        = (req.parts.map (fun pe => (pe.1, ErrorCode.E_INVALID_SPACEVIDLEN)),
          []))
    ∧ (∀ vid, env.vidLenRes = some vid → env.edgeIndexesRes = none →
      process env req
        = (req.parts.map (fun pe => (pe.1, ErrorCode.E_SPACE_NOT_FOUND)), [])) := by
  constructor
  · intro h
    unfold process
    rw [h]
  · intro vid h1 h2
    unfold process
    rw [h1, h2]

/-- C8: on the no-index fast path a partition containing an invalid identity
fails whole with `E_INVALID_VID` and submits nothing, while a fully valid
partition submits a remove-only batch of the encoded edge keys without
acquiring any lock. -/
theorem c8_fast_path (env : Env) (vid spaceId partId : Nat)
    (edges : List EdgeKeyT) :
    ((∃ e ∈ edges, isValidVidLen vid e.src e.dst = false) →
      processPart env vid spaceId [] (partId, edges)
        = ((partId, ErrorCode.E_INVALID_VID), none))
    ∧ ((∀ e ∈ edges, isValidVidLen vid e.src e.dst = true) →
      processPart env vid spaceId [] (partId, edges)
        = ((partId, env.storeResult partId),
          some ⟨partId, edges.map (fun e => BatchOp.remove
            (edgeKey vid partId e.src e.edgeType e.ranking e.dst)), false⟩)) := by
  constructor
  · intro h
    unfold processPart
    simp only [List.isEmpty_nil, if_true]
    rw [fastPathKeys_invalid h]
  · intro h
    unfold processPart
    simp only [List.isEmpty_nil, if_true]
    rw [fastPathKeys_all_valid h]
    simp [List.map_map]

/-- C10 (amended): a successful index-aware batch construction is non-empty
whenever at least one key was found under some requested edge's prefix; a
partition whose edges have no keys in the store yields an empty batch, so the
non-emptiness assertion does not hold for every input. -/
theorem c10_nonempty_when_scanned (env : Env) (vid spaceId : Nat)
    (idxs : List IndexItem) (partId : Nat) (edges : List EdgeKeyT)
    (ops : List BatchOp) (e : EdgeKeyT) (kvs : List ScanEntry)
    (hok : deleteEdges env vid spaceId idxs partId edges = .ok ops)
    (he : e ∈ edges)
    (hscan : env.pfxScan spaceId partId
      (edgePfx vid partId e.src e.edgeType e.ranking e.dst) = .ok kvs)
    (hne : kvs ≠ []) :
    ops ≠ [] := by
  obtain ⟨s, t, rfl⟩ := List.append_of_mem he
  obtain ⟨a, b, c, hb, rfl⟩ := deleteEdges_split hok
  obtain ⟨kvs1, hscan1, hmatch⟩ := deleteEdgesOne_shape hb
  rw [hscan] at hscan1
  injection hscan1 with hk
  subst hk
  have hbne : b ≠ [] := by
    rcases hdw : kvs.dropWhile (isLock vid) with _ | ⟨kv, rest2⟩
    · simp only [hdw] at hmatch
      subst hmatch
      have htw : kvs.takeWhile (isLock vid) = kvs := by
        have h2 := List.takeWhile_append_dropWhile (p := isLock vid) (l := kvs)
        rw [hdw, List.append_nil] at h2
        exact h2
      rw [htw]
      simpa using hne
    · simp only [hdw] at hmatch
      split at hmatch
      · obtain ⟨iops, _, rfl⟩ := hmatch
        simp
      · subst hmatch
        simp
  intro habs
  rcases List.append_eq_nil.mp habs with ⟨h2, -⟩
  rcases List.append_eq_nil.mp h2 with ⟨-, h3⟩
  exact hbne h3

/-- C9: every partition named in the request yields exactly one terminal
result code on every control path, and the request is complete exactly when
the number of reported outcomes equals the number of partitions. -/
theorem c9_exactly_once (env : Env) (req : DeleteEdgesRequest)
    (hnodup : (req.parts.map Prod.fst).Nodup) :
    (process env req).1.map Prod.fst = req.parts.map Prod.fst
    ∧ (process env req).1.length = req.parts.length
    ∧ ∀ p ∈ req.parts.map Prod.fst,
        ((process env req).1.map Prod.fst).count p = 1 := by
  have hfst : (process env req).1.map Prod.fst = req.parts.map Prod.fst := by
    unfold process
    split
    · simp
    · split
      · simp
      · simp only []
        rw [List.map_map, List.map_map]
        apply List.map_congr_left
        intro pe _
        exact processPart_fst _ _ _ _ pe
  refine ⟨hfst, ?_, ?_⟩
  · have h2 := congrArg List.length hfst
    simpa using h2
  · intro p hp
    rw [hfst]
    exact List.count_eq_one_of_mem hnodup hp

/-- C4: if the partition's index state is Locked when an index entry is
reached during batch construction, the partition fails with
`E_DATA_CONFLICT_ERROR`, no batch is submitted for it, and its keyspace is
left unchanged. -/
theorem c4_locked_aborts (env : Env) (vid : Nat) (idxs : List IndexItem)
    (partId : Nat) (pre post : List EdgeKeyT) (e : EdgeKeyT)
    (req : DeleteEdgesRequest) (store : Nat → List (SKey × SKey))
    (hvid : env.vidLenRes = some vid)
    (hidx : env.edgeIndexesRes = some idxs)
    (hlock : checkIndexLocked (env.getIndexState req.spaceId partId) = true)
    (hpre : ∀ e' ∈ pre, ∃ o,
      deleteEdgesOne env vid req.spaceId idxs partId e' = .ok o)
    (hreach : reachesIndexEntry env vid req.spaceId idxs partId e)
    (hmem : (partId, pre ++ e :: post) ∈ req.parts)
    (honly : ∀ pe ∈ req.parts, pe.1 = partId → pe.2 = pre ++ e :: post) :
    (partId, ErrorCode.E_DATA_CONFLICT_ERROR) ∈ (process env req).1
    ∧ (∀ sub ∈ (process env req).2, sub.partId ≠ partId)
    ∧ applySubmissions store (process env req).2 partId = store partId := by
  have hdel : deleteEdges env vid req.spaceId idxs partId (pre ++ e :: post)
      = .error ErrorCode.E_DATA_CONFLICT_ERROR :=
    deleteEdges_locked hlock hreach hpre
  have hnnil : idxs ≠ [] := by
    obtain ⟨_, _, _, _, _, _, _, idx, hm, _⟩ := hreach
    intro hnil
    subst hnil
    simp at hm
  have hpp : processPart env vid req.spaceId idxs (partId, pre ++ e :: post)
      = ((partId, ErrorCode.E_DATA_CONFLICT_ERROR), none) := by
    unfold processPart
    rw [if_neg (by simpa [List.isEmpty_iff] using hnnil)]
    simp only [hdel]
  have hproc : process env req
      = ((req.parts.map (processPart env vid req.spaceId idxs)).map Prod.fst,
        (req.parts.map (processPart env vid req.spaceId idxs)).filterMap
          Prod.snd) := by
    unfold process
    rw [hvid, hidx]
  have hsubs : ∀ sub ∈ (process env req).2, sub.partId ≠ partId := by
    intro sub hsub
    rw [hproc] at hsub
    rcases List.mem_filterMap.mp hsub with ⟨out, hout, hsome⟩
    rcases List.mem_map.mp hout with ⟨pe, hpe, rfl⟩
    by_cases hpid : pe.1 = partId
    · have hpe2 : pe.2 = pre ++ e :: post := honly pe hpe hpid
      have : pe = (partId, pre ++ e :: post) := by
        cases pe
        simp_all
      rw [this, hpp] at hsome
      simp at hsome
    · rw [processPart_snd_partId hsome]
      exact hpid
  refine ⟨?_, hsubs, applySubmissions_not_touched store hsubs⟩
  rw [hproc]
  refine List.mem_map.mpr
    ⟨processPart env vid req.spaceId idxs (partId, pre ++ e :: post),
      List.mem_map.mpr ⟨_, hmem, rfl⟩, ?_⟩
  rw [hpp]

/-- C1 (counterexample): an edge whose vertex-id lengths do not match the
space vid length (here 8) is not rejected by the index-aware builder — the
partition does not fail with an invalid-identity error and operations are
emitted for it. -/
theorem c1_counterexample :
    isValidVidLen 8 eOK.src eOK.dst = false
    ∧ deleteEdges envNormal 8 1 [idx0] 1 [eOK]
      = .ok [BatchOp.remove (SKey.index 8 1 7 eOK.src 0 eOK.dst []),
          BatchOp.remove (SKey.raw KeyClass.edgeRec ("k"))] :=
  ⟨by decide, rfl⟩

/-- C1 (witness): a concrete run of the amended claim at an environment whose
prefix scan fails with the invalid-identity code. -/
theorem c1_witness :
    ∃ e ∈ [eOK], envScanFail.pfxScan 1 1
      (edgePfx 1 1 e.src e.edgeType e.ranking e.dst)
      = .error ErrorCode.E_INVALID_VID :=
  c1_no_vid_check_in_deleteEdges envScanFail 1 1 [idx0] 1 [eOK] rfl

/-- C2 (witness): the amended claim at a concrete Normal-state run. -/
theorem c2_witness :
    (∀ op ∈ [BatchOp.remove (SKey.index 1 1 7 ("a") 0 ("b") []),
        BatchOp.remove (SKey.raw KeyClass.edgeRec ("k"))],
      opIsDeferredPut op = false)
    ∨ (∀ op ∈ [BatchOp.remove (SKey.index 1 1 7 ("a") 0 ("b") []),
        BatchOp.remove (SKey.raw KeyClass.edgeRec ("k"))],
      opIsIndexRemove op = false) :=
  c2_uniform_classification envNormal 1 1 [idx0] 1 [eOK] _ rfl

/-- C3 (witness): the per-edge operation order at a concrete run. -/
theorem c3_witness :
    ∃ segs : List (List BatchOp),
      List.Forall₂ (perEdgeShape envNormal 1 1 [idx0] 1) [eOK] segs
      ∧ [BatchOp.remove (SKey.index 1 1 7 ("a") 0 ("b") []),
          BatchOp.remove (SKey.raw KeyClass.edgeRec ("k"))] = segs.flatten :=
  c3_op_order envNormal 1 1 [idx0] 1 [eOK] _ rfl

/-- C4 (witness): a concrete Locked-state run of one partition. -/
theorem c4_witness :
    (1, ErrorCode.E_DATA_CONFLICT_ERROR)
      ∈ (process envLocked ⟨1, [(1, [eOK])]⟩).1
    ∧ (∀ sub ∈ (process envLocked ⟨1, [(1, [eOK])]⟩).2, sub.partId ≠ 1)
    ∧ applySubmissions (fun _ => []) (process envLocked ⟨1, [(1, [eOK])]⟩).2 1
      = (fun _ => ([] : List (SKey × SKey))) 1 :=
  c4_locked_aborts envLocked 1 [idx0] 1 [] [] eOK ⟨1, [(1, [eOK])]⟩
    (fun _ => []) rfl rfl rfl (by simp)
    ⟨[⟨KeyClass.edgeRec, "k", "v"⟩], ⟨KeyClass.edgeRec, "k", "v"⟩, [],
      rfl, rfl, rfl, rfl, idx0, by simp, rfl, rfl⟩
    (by simp)
    (by
      rintro pe hpe -
      rcases List.mem_singleton.mp hpe with rfl
      rfl)

/-- C5 (witness): a concrete Rebuilding-state run. -/
theorem c5_witness :
    BatchOp.put (deleteOperationKey 1)
      (edgeIndexKey 1 1 7 eOK.src eOK.ranking eOK.dst [])
      ∈ [BatchOp.put (SKey.delOp 1) (SKey.index 1 1 7 ("a") 0 ("b") []),
          BatchOp.remove (SKey.raw KeyClass.edgeRec ("k"))]
    ∧ ∀ op ∈ [BatchOp.put (SKey.delOp 1) (SKey.index 1 1 7 ("a") 0 ("b") []),
          BatchOp.remove (SKey.raw KeyClass.edgeRec ("k"))],
        opIsIndexRemove op = false :=
  c5_rebuilding_deferred envRebuild 1 1 [idx0] 1 [eOK] _ eOK
    [⟨KeyClass.edgeRec, "k", "v"⟩] ⟨KeyClass.edgeRec, "k", "v"⟩ [] idx0 []
    rfl rfl (by simp) rfl rfl rfl (by simp) rfl rfl

/-- C6 (witness): a concrete run in which extraction fails for one index. -/
theorem c6_witness :
    deleteEdgesOne envSkip 1 1 ([idx0] ++ idxF :: []) 1 eOK
      = deleteEdgesOne envSkip 1 1 ([idx0] ++ []) 1 eOK
    ∧ ∀ ops, deleteEdgesOne envSkip 1 1 ([idx0] ++ idxF :: []) 1 eOK = .ok ops
        → rmOf ⟨KeyClass.edgeRec, "k", "v"⟩ ∈ ops :=
  c6_extraction_failure_skips envSkip 1 1 [idx0] [] idxF 1 eOK
    [⟨KeyClass.edgeRec, "k", "v"⟩] ⟨KeyClass.edgeRec, "k", "v"⟩ []
    rfl rfl rfl rfl rfl rfl

/-- C7 (witness): concrete runs of both configuration-failure paths. -/
theorem c7_witness :
    process envNoVid ⟨1, [(1, [eOK])]⟩
      = ([(1, ErrorCode.E_INVALID_SPACEVIDLEN)], [])
    ∧ process envNoIdx ⟨1, [(1, [eOK])]⟩
      = ([(1, ErrorCode.E_SPACE_NOT_FOUND)], []) :=
  ⟨(c7_config_failures envNoVid ⟨1, [(1, [eOK])]⟩).1 rfl,
    (c7_config_failures envNoIdx ⟨1, [(1, [eOK])]⟩).2 1 rfl rfl⟩

/-- C8 (witness): concrete fast-path runs of an invalid and of a valid
partition. -/
theorem c8_witness :
    processPart envFast 1 1 [] (1, [⟨("aa"), 3, 0, ("b")⟩])
      = ((1, ErrorCode.E_INVALID_VID), none)
    ∧ processPart envFast 1 1 [] (1, [eOK])
      = ((1, ErrorCode.SUCCEEDED),
        some ⟨1, [BatchOp.remove (edgeKey 1 1 ("a") 3 0 ("b"))], false⟩) :=
  ⟨(c8_fast_path envFast 1 1 1 [⟨("aa"), 3, 0, ("b")⟩]).1
      ⟨⟨("aa"), 3, 0, ("b")⟩, by simp, by decide⟩,
    (c8_fast_path envFast 1 1 1 [eOK]).2 (by
      intro e he
      rcases List.mem_singleton.mp he with rfl
      decide)⟩

/-- C9 (witness): a concrete two-partition request. -/
theorem c9_witness :
    (process envNormal ⟨1, [(1, [eOK]), (2, [])]⟩).1.map Prod.fst
      = [(1, [eOK]), (2, ([] : List EdgeKeyT))].map Prod.fst
    ∧ (process envNormal ⟨1, [(1, [eOK]), (2, [])]⟩).1.length
      = [(1, [eOK]), (2, ([] : List EdgeKeyT))].length
    ∧ ∀ p ∈ [(1, [eOK]), (2, ([] : List EdgeKeyT))].map Prod.fst,
        ((process envNormal ⟨1, [(1, [eOK]), (2, [])]⟩).1.map Prod.fst).count p
          = 1 :=
  c9_exactly_once envNormal ⟨1, [(1, [eOK]), (2, [])]⟩ (by simp)

/-- C10 (counterexample): with one index configured but no keys under the
edge's prefix, the index-aware builder succeeds with an empty batch, so the
non-emptiness assertion checked before submission does not hold for this
input. -/
theorem c10_counterexample :
    deleteEdges envEmptyScan 1 1 [idx0] 1 [eOK] = .ok [] := rfl

/-- C10 (witness): the amended claim at a concrete run with one scanned
key. -/
theorem c10_witness :
    [BatchOp.remove (SKey.index 1 1 7 ("a") 0 ("b") []),
      BatchOp.remove (SKey.raw KeyClass.edgeRec ("k"))] ≠ ([] : List BatchOp) :=
  c10_nonempty_when_scanned envNormal 1 1 [idx0] 1 [eOK] _ eOK
    [⟨KeyClass.edgeRec, "k", "v"⟩] rfl (by simp) rfl (by simp)

end NebulaStorage







